import Mathlib

/-!
# MTJD jobs (`src/core/MTJD/job.cpp`)

A shallow embedding of `Lumix::MTJD::Job`: its constructor, the two dependency
counter operations and the completion path `onExecuted`, followed by the
properties of the dependency counter and of the completion order.

Conventions.
* The dependency counter is a 32-bit machine integer (`job.cpp` reads the
  decremented value into a `uint32_t`).  It is represented by an `Int` together
  with the explicit wrap-around `wrapInt32`; the conversion to `uint32_t` is
  `toUInt32`.
* `Manager&` is a reference: the manager is threaded through as explicit state.
* `ASSERT` is the debug-build assertion: a failing assertion aborts, which is
  the `Except.error` result.
-/

namespace Lumix
namespace MTJD

/-! ## Machine integers -/

/-- Two's complement wrap-around of a mathematical integer into the range of
`int32_t`, that is `[-2^31, 2^31)`. -/
def wrapInt32 (x : Int) : Int := (x + 2147483648) % 4294967296 - 2147483648

/-- Conversion of an integer value to `uint32_t` (reduction modulo `2^32`). -/
def toUInt32 (x : Int) : Int := x % 4294967296

/-- Range of `int32_t`. -/
def inInt32 (x : Int) : Prop := -2147483648 ≤ x ∧ x < 2147483648

instance (x : Int) : Decidable (inInt32 x) := by
  unfold inInt32; infer_instance

/-! ## Collaborators that `job.cpp` uses -/

/-- The preprocessor symbol `TYPE`, which `job.cpp` compares with
`MULTI_THREAD` to select the bodies of the two counter operations. -/
inductive BuildType
  | SINGLE_THREAD
  | MULTI_THREAD
  deriving DecidableEq, Repr

/-- Modelled from the spec: the `Priority` enumeration is declared in `job.h`,
which is not among the sources; the spec describes it as an "ordinal used for
queue ordering (e.g., HIGH/NORMAL/LOW)". -/
inductive Priority
  | HIGH
  | NORMAL
  | LOW
  deriving DecidableEq, Repr

/-- Modelled from the spec: the synchronization primitive (`MT::Event`, not
among the sources) is "a completion signal (event/fence) that one or more
waiters can block on and that a single producer can trigger". Only whether it
has been triggered is recorded. -/
structure Event where
  triggered : Bool
  deriving DecidableEq, Repr

/-- Modelled from the spec: `MT::atomicIncrement` (not among the sources)
"atomically increases the pending count by one"; the result is the new value,
in 32-bit arithmetic. -/
def MT.atomicIncrement (value : Int) : Int := wrapInt32 (value + 1)

/-- Modelled from the spec: `MT::atomicDecrement` (not among the sources)
"atomically decreases the pending count by one" and yields "the resulting
count", in 32-bit arithmetic. -/
def MT.atomicDecrement (value : Int) : Int := wrapInt32 (value - 1)

/-- Modelled from the spec: the members of `BaseEntry` (`base_entry.h` is not
among the sources): the "atomic pending-dependency counter", the "optional
synchronization primitive", the dependents that wait for this entry (each
named by a number) and, for what marking the entry done does, the dependents
already notified and the record "that the entry has finished". -/
structure BaseEntry where
  m_dependency_count : Int
  m_sync_event : Option Event
  dependents : List Nat
  notified : List Nat
  finished : Bool
  deriving DecidableEq, Repr

/-- Modelled from the spec: the constructor `BaseEntry(depend_count, sync_event)`
(not among the sources) stores the initial count; the signal is "present only
if the job was constructed to support synchronous waiting". A new entry has no
dependents, has notified nobody and has not finished. -/
def BaseEntry.new (depend_count : Int) (sync_event : Bool) : BaseEntry :=
  { m_dependency_count := depend_count
    m_sync_event := if sync_event then some { triggered := false } else none
    dependents := []
    notified := []
    finished := false }

/-- Modelled from the spec: `BaseEntry::dependencyReady` (not among the
sources) marks the entry done: it notifies the dependents ("notifying
dependents", "so their counters can be decremented"), "releases the completion
signal if present" ("any thread blocked waiting on this entry's completion is
woken") "and records that the entry has finished". -/
def BaseEntry.dependencyReady (b : BaseEntry) : BaseEntry :=
  { b with
    notified := b.notified ++ b.dependents
    m_sync_event := b.m_sync_event.map fun _ => { triggered := true }
    finished := true }

/-! ## Job -/

/-- The data members of `Job`: those of `BaseEntry` and the ones the
constructor initialises. The reference `m_manager` is not a field: the manager
is passed to the operations that use it. -/
structure Job extends BaseEntry where
  m_priority : Priority
  m_auto_destroy : Bool
  m_scheduled : Bool
  m_executed : Bool
  m_job_name : String
  deriving DecidableEq, Repr

/-- Modelled from the spec: the state of the `Manager` (`manager.h` is not
among the sources) that `job.cpp` touches: the ready queue that
`Manager::schedule` feeds. One entry is appended per call of `schedule`. -/
structure Manager where
  m_ready : List Job
  deriving DecidableEq, Repr

/-- Modelled from the spec: `Manager::schedule(job)` (not among the sources)
"inserts a ready job into the priority queue"; the job's `scheduled` flag is
"set once the job has been placed in a worker queue". The order inside the
queue is not modelled: entries are appended in call order. -/
def Manager.schedule (m : Manager) (job : Job) : Job × Manager :=
  let queued : Job := { job with m_scheduled := true }
  (queued, { m with m_ready := m.m_ready ++ [queued] })

/-- Abort of the program. -/
inductive Fault
  | assertion_failed (expr : String)
  | use_after_free
  deriving DecidableEq, Repr

/-- The constructor
`Job::Job(bool auto_destroy, Priority priority, bool sync_event, Manager& manager)`:
`BaseEntry(1, sync_event)`, the member initialisers and
`setJobName("Unknown Job")`. -/
def Job.new (auto_destroy : Bool) (priority : Priority) (sync_event : Bool) : Job :=
  { toBaseEntry := BaseEntry.new 1 sync_event
    m_priority := priority
    m_auto_destroy := auto_destroy
    m_scheduled := false
    m_executed := false
    m_job_name := "Unknown Job" }

/-- The method `Job::incrementDependency()`. In the multi-thread build the counter is
incremented atomically and then `ASSERT(!m_scheduled)` is evaluated; in any
other build the body is empty. -/
def Job.incrementDependency (T : BuildType) (j : Job) : Except Fault Job :=
  match T with
  | .MULTI_THREAD =>
    let j1 : Job := { j with m_dependency_count := MT.atomicIncrement j.m_dependency_count }
    if !j1.m_scheduled then .ok j1 else .error (.assertion_failed "!m_scheduled")
  | .SINGLE_THREAD => .ok j

/-- The method `Job::decrementDependency()`. In the multi-thread build the counter is
decremented atomically, the new value is stored in a `uint32_t`, and
`m_manager.schedule(this)` is called when that value is `1`; in any other
build the body is empty. -/
def Job.decrementDependency (T : BuildType) (j : Job) (m : Manager) : Job × Manager :=
  match T with
  | .MULTI_THREAD =>
    let ret := MT.atomicDecrement j.m_dependency_count
    let j1 : Job := { j with m_dependency_count := ret }
    let count := toUInt32 ret
    if 1 = count then m.schedule j1 else (j1, m)
  | .SINGLE_THREAD => (j, m)

/-- Makes `n` successive calls of `incrementDependency` on the same job. -/
def Job.incrementN (T : BuildType) : Nat → Job → Except Fault Job
  | 0, j => .ok j
  | n + 1, j =>
    match Job.incrementN T n j with
    | .ok j1 => Job.incrementDependency T j1
    | .error e => .error e

/-- Makes `n` successive calls of `decrementDependency` on the same job. -/
def Job.decrementN (T : BuildType) : Nat → Job × Manager → Job × Manager
  | 0, s => s
  | n + 1, s =>
    let s1 := Job.decrementN T n s
    Job.decrementDependency T s1.1 s1.2

/-- One call on a job's dependency counter. -/
inductive Call
  | increment
  | decrement
  deriving DecidableEq, Repr

/-- Performs one call. -/
def Job.applyCall (T : BuildType) (c : Call) (s : Job × Manager) :
    Except Fault (Job × Manager) :=
  match c with
  | .increment =>
    match Job.incrementDependency T s.1 with
    | .ok j1 => .ok (j1, s.2)
    | .error e => .error e
  | .decrement => .ok (Job.decrementDependency T s.1 s.2)

/-- Performs a sequence of calls, first call first; stops at the first abort. -/
def Job.applyCalls (T : BuildType) : List Call → Job × Manager → Except Fault (Job × Manager)
  | [], s => .ok s
  | c :: cs, s =>
    match Job.applyCall T c s with
    | .ok s1 => Job.applyCalls T cs s1
    | .error e => .error e

/-- Number of increments in a call sequence. -/
def Call.increments (cs : List Call) : Nat := cs.count .increment

/-- Number of decrements in a call sequence. -/
def Call.decrements (cs : List Call) : Nat := cs.count .decrement

/-! ## The single-threaded mode as the specification words it -/

/-- The single-threaded `increment_dependency` of the specification: "a simple
non-atomic update", the count raised by one. -/
def SingleThreadSpec.incrementDependency (j : Job) : Job :=
  { j with m_dependency_count := wrapInt32 (j.m_dependency_count + 1) }

/-- The single-threaded `decrement_dependency` of the specification: "a simple
non-atomic update", the count lowered by one, with "ready" "evaluated
immediately and inline": the job is handed on when the threshold `1` is
reached. -/
def SingleThreadSpec.decrementDependency (j : Job) (m : Manager) : Job × Manager :=
  let j1 : Job := { j with m_dependency_count := wrapInt32 (j.m_dependency_count - 1) }
  if j1.m_dependency_count = 1 then m.schedule j1 else (j1, m)

/-! ## Completion path -/

/-- The effects of the completion path that other threads can observe. -/
inductive Action
  | dependencyReady
  | setExecuted
  | destroy
  deriving DecidableEq, Repr

/-- An action together with the members of the job at the moment the action
starts. -/
structure Observation where
  action : Action
  seen : Job
  deriving DecidableEq, Repr

/-- The storage of one job object: `obj` is `none` once the object has been
deleted; `trace` lists what has been done to it, oldest first. -/
structure Slot where
  obj : Option Job
  trace : List Observation
  deriving DecidableEq, Repr

/-- A member access through `this`: it aborts when the object is gone. -/
def Slot.access (s : Slot) : Except Fault Job :=
  match s.obj with
  | some j => .ok j
  | none => .error .use_after_free

/-- The method `Job::onExecuted()`: `BaseEntry::dependencyReady()`, then
`m_executed = true`, then `LUX_DELETE(this)` when `m_auto_destroy` is set. -/
def Job.onExecuted (s : Slot) : Except Fault Slot := do
  let j0 ← s.access
  let s1 : Slot :=
    { obj := some { j0 with toBaseEntry := j0.toBaseEntry.dependencyReady }
      trace := s.trace ++ [{ action := .dependencyReady, seen := j0 }] }
  let j1 ← s1.access
  let s2 : Slot :=
    { obj := some { j1 with m_executed := true }
      trace := s1.trace ++ [{ action := .setExecuted, seen := j1 }] }
  let j2 ← s2.access
  if j2.m_auto_destroy then
    .ok { obj := none, trace := s2.trace ++ [{ action := .destroy, seen := j2 }] }
  else
    .ok s2

/-- A live job on which nothing has been done yet. -/
def Slot.fresh (j : Job) : Slot := { obj := some j, trace := [] }

/-- The value of `m_executed` that is in memory when `onExecuted` starts
`BaseEntry::dependencyReady`, the call that releases the completion signal. -/
def Job.executedAtSignal (j : Job) : Option Bool :=
  match Job.onExecuted (Slot.fresh j) with
  | .ok s => (s.trace.find? fun o => o.action = .dependencyReady).map fun o => o.seen.m_executed
  | .error _ => none

end MTJD

/-!
# Path normalisation (`src/core/path_utils.h`)

Characters are their byte codes: `'\0'` is `0`, `'/'` is `47`, `'\\'` is `92`,
`'A'`..`'Z'` are `65`..`90` and `'a'`..`'z'` are `97`..`122`. A `const char*`
is the list of bytes it points to; reading past the end of the list yields the
terminating `'\0'`. The output buffer is the list of the bytes it holds, and a
write outside it aborts. The two buffers do not overlap. The counter `i` stays
at or below `max_size`, a `uint32_t`, so its increment never wraps.
-/

namespace PathUtils

/-- Abort of the program. -/
inductive Fault
  | assertion_failed (expr : String)
  | out_of_bounds_write (index : Int)
  deriving DecidableEq, Repr

/-- The read `path[k]` of a NUL-terminated string. -/
def readPath (path : List Nat) (k : Nat) : Nat := path.getD k 0

/-- The write `out[index] = value` into a buffer of `out.length` bytes. -/
def writeOut (out : List Nat) (index : Int) (value : Nat) : Except Fault (List Nat) :=
  if 0 ≤ index ∧ index < out.length then .ok (out.set index.toNat value)
  else .error (.out_of_bounds_write index)

/-- The `while` loop of `PathUtils::normalize`. The first argument is what
`path` points to, `i` is the counter, which is also the offset of `out` in the
output buffer. Each round executes
`*out = *path == '\\' ? '/' : *path;` and
`*out = *path >= 'A' && *path <= 'Z' ? *path - 'A' + 'a' : *out;`
and advances `path`, `out` and `i`. The result is the final `i` and the
buffer. -/
def normalizeLoop (max_size : Nat) : List Nat → Nat → List Nat → Except Fault (Nat × List Nat)
  | [], i, out => .ok (i, out)
  | c :: rest, i, out =>
    if c ≠ 0 ∧ i < max_size then
      match writeOut out i (if c = 92 then 47 else c) with
      | .error e => .error e
      | .ok out1 =>
        match writeOut out1 i (if 65 ≤ c ∧ c ≤ 90 then c - 65 + 97 else out1.getD i 0) with
        | .error e => .error e
        | .ok out2 => normalizeLoop max_size rest (i + 1) out2
    else .ok (i, out)

/-- The function `PathUtils::normalize(path, out, max_size)`: the assertion
`max_size > 0`, the skip of one leading `'\\'` or `'/'`, the loop, and the
terminator written at `out[i]` when `i < max_size` and at `out[i - 1]`
otherwise. The result is the output buffer. -/
def normalize (path : List Nat) (out : List Nat) (max_size : Nat) : Except Fault (List Nat) :=
  if max_size > 0 then
    let path1 := if readPath path 0 = 92 ∨ readPath path 0 = 47 then path.drop 1 else path
    match normalizeLoop max_size path1 0 out with
    | .error e => .error e
    | .ok (i, out1) => writeOut out1 (if i < max_size then (i : Int) else (i : Int) - 1) 0
  else .error (.assertion_failed "max_size > 0")

/-! ### The reference definition -/

/-- The characters of a NUL-terminated string: those before the first `'\0'`. -/
def cString (path : List Nat) : List Nat := path.takeWhile fun c => c ≠ 0

/-- The path "with at most one leading `'/'` or `'\\'` removed". -/
def stripLeadingSeparator : List Nat → List Nat
  | [] => []
  | c :: cs => if c = 92 ∨ c = 47 then cs else c :: cs

/-- The character map `f`: `'\\'` to `'/'`, `'A'..'Z'` to `'a'..'z'`, every
other character to itself. -/
def foldChar (c : Nat) : Nat :=
  if c = 92 then 47 else if 65 ≤ c ∧ c ≤ 90 then c + 32 else c

/-- The reference result: `f` applied to the first
`min(len(p), max_size - 1)` characters of the stripped path `p`, followed by a
terminating NUL. -/
def normalizeRef (path : List Nat) (max_size : Nat) : List Nat :=
  let p := stripLeadingSeparator (cString path)
  (p.take (min p.length (max_size - 1))).map foldChar ++ [0]

end PathUtils

/-!
# Console autocompletion (`src/lua_script/editor/lua_script_plugins.cpp`)

The word-start scans of `ConsolePlugin::autocompleteCallback`. Characters are
their byte codes. `data->Buf` is the list of the bytes of the input buffer; the
scans record every index at which they read it.
-/

namespace ConsolePlugin

/-- The predicate `isWordChar(c)`: a letter, a digit or `'_'`. -/
def isWordChar (c : Nat) : Bool :=
  (97 ≤ c && c ≤ 122) || (65 ≤ c && c ≤ 90) || (48 ≤ c && c ≤ 57) || c == 95

/-- The read `data->Buf[index]`. Inside the buffer it yields the byte stored
there; outside the buffer the language gives no value, and `junk` stands for
whatever the machine finds. -/
def readBuf (Buf : List Nat) (junk : Nat) (index : Int) : Nat :=
  if 0 ≤ index ∧ index < Buf.length then Buf.getD index.toNat junk else junk

/-- The loop `while (start_word > 0 && cond(c)) { --start_word; c = data->Buf[start_word - 1]; }`
from the value of `start_word` given, the character `c` last read and the
indices read so far; `cond` is the test on `c`. The result is the final
`start_word` and all indices read. -/
def wordStartLoop (cond : Nat → Bool) (Buf : List Nat) (junk : Nat) :
    Nat → Nat → List Int → Nat × List Int
  | 0, _, reads => (0, reads)
  | n + 1, c, reads =>
    if cond c then
      wordStartLoop cond Buf junk n (readBuf Buf junk ((n : Int) - 1)) (reads ++ [(n : Int) - 1])
    else (n + 1, reads)

/-- The scan `int start_word = data->CursorPos; char c = data->Buf[start_word - 1];`
followed by the loop. -/
def wordStart (cond : Nat → Bool) (Buf : List Nat) (junk : Nat) (CursorPos : Nat) :
    Nat × List Int :=
  wordStartLoop cond Buf junk CursorPos (readBuf Buf junk ((CursorPos : Int) - 1))
    [(CursorPos : Int) - 1]

/-- The scan of the completion branch: it runs over word characters and `'.'`. -/
def completionWordStart (Buf : List Nat) (junk : Nat) (CursorPos : Nat) : Nat × List Int :=
  wordStart (fun c => isWordChar c || c == 46) Buf junk CursorPos

/-- The scan of the `insert_value` branch: it runs over word characters. -/
def insertWordStart (Buf : List Nat) (junk : Nat) (CursorPos : Nat) : Nat × List Int :=
  wordStart (fun c => isWordChar c) Buf junk CursorPos

end ConsolePlugin

namespace MTJD

/-! ## Arithmetic of the 32-bit counter -/

theorem wrapInt32_of_inInt32 {x : Int} (h : inInt32 x) : wrapInt32 x = x := by
  unfold inInt32 at h
  unfold wrapInt32
  omega

theorem inInt32_wrapInt32 (x : Int) : inInt32 (wrapInt32 x) := by
  unfold inInt32 wrapInt32
  omega

theorem wrapInt32_pred (x : Int) : wrapInt32 (wrapInt32 x - 1) = wrapInt32 (x - 1) := by
  unfold wrapInt32
  omega

theorem toUInt32_wrapInt32_eq_one (x : Int) : 1 = toUInt32 (wrapInt32 x) ↔ wrapInt32 x = 1 := by
  unfold toUInt32 wrapInt32
  omega

/-- The wrapped counter is `1` exactly at the multiples of `2^32` above `1`. -/
theorem wrapInt32_eq_one_iff (x : Int) : wrapInt32 x = 1 ↔ (x - 1) % 4294967296 = 0 := by
  unfold wrapInt32
  omega

theorem wrapInt32_add_left (x y : Int) : wrapInt32 (wrapInt32 x + y) = wrapInt32 (x + y) := by
  unfold wrapInt32
  omega

theorem wrapInt32_sub_left (x y : Int) : wrapInt32 (wrapInt32 x - y) = wrapInt32 (x - y) := by
  unfold wrapInt32
  omega

/-! ## One call -/

theorem incrementDependency_mt (j : Job) :
    Job.incrementDependency .MULTI_THREAD j =
      if j.m_scheduled then .error (.assertion_failed "!m_scheduled")
      else .ok { j with m_dependency_count := wrapInt32 (j.m_dependency_count + 1) } := by
  cases h : j.m_scheduled <;> simp [Job.incrementDependency, MT.atomicIncrement, h]

theorem decrementDependency_mt (j : Job) (m : Manager) :
    Job.decrementDependency .MULTI_THREAD j m =
      if wrapInt32 (j.m_dependency_count - 1) = 1 then
        m.schedule { j with m_dependency_count := wrapInt32 (j.m_dependency_count - 1) }
      else ({ j with m_dependency_count := wrapInt32 (j.m_dependency_count - 1) }, m) := by
  simp only [Job.decrementDependency, MT.atomicDecrement, toUInt32_wrapInt32_eq_one]

theorem decrementDependency_mt_count (j : Job) (m : Manager) :
    (Job.decrementDependency .MULTI_THREAD j m).1.m_dependency_count =
      wrapInt32 (j.m_dependency_count - 1) := by
  rw [decrementDependency_mt]
  split <;> simp [Manager.schedule]

theorem decrementDependency_mt_manager (j : Job) (m : Manager) :
    (Job.decrementDependency .MULTI_THREAD j m).2 =
      if wrapInt32 (j.m_dependency_count - 1) = 1 then
        { m_ready := m.m_ready ++ [(Job.decrementDependency .MULTI_THREAD j m).1] }
      else m := by
  rw [decrementDependency_mt]
  split <;> simp [Manager.schedule]

/-! ## Repeated calls -/

theorem decrementN_succ (T : BuildType) (n : Nat) (s : Job × Manager) :
    Job.decrementN T (n + 1) s =
      Job.decrementDependency T (Job.decrementN T n s).1 (Job.decrementN T n s).2 := rfl

/-- The counter after `n + 1` decrements. -/
theorem decrementN_count (n : Nat) (s : Job × Manager) :
    (Job.decrementN .MULTI_THREAD (n + 1) s).1.m_dependency_count =
      wrapInt32 (s.1.m_dependency_count - (n + 1 : Nat)) := by
  induction n with
  | zero =>
    rw [decrementN_succ, decrementDependency_mt_count]
    simp [Job.decrementN]
  | succ k ih =>
    rw [decrementN_succ, decrementDependency_mt_count, ih, wrapInt32_pred]
    congr 1
    push_cast
    ring

/-- The counter after `n` decrements, for a counter that starts in range. -/
theorem decrementN_count_of_inInt32 (n : Nat) (s : Job × Manager)
    (h : inInt32 s.1.m_dependency_count) :
    (Job.decrementN .MULTI_THREAD n s).1.m_dependency_count =
      wrapInt32 (s.1.m_dependency_count - n) := by
  cases n with
  | zero => simp [Job.decrementN, wrapInt32_of_inInt32 h]
  | succ k => exact decrementN_count k s

/-- As long as no decrement brings the counter to `1`, the manager is not
touched. -/
theorem decrementN_manager_untouched (n : Nat) (s : Job × Manager)
    (h : ∀ i : Nat, 1 ≤ i → i ≤ n → wrapInt32 (s.1.m_dependency_count - i) ≠ 1) :
    (Job.decrementN .MULTI_THREAD n s).2 = s.2 := by
  induction n with
  | zero => rfl
  | succ k ih =>
    have hk : (Job.decrementN .MULTI_THREAD k s).2 = s.2 :=
      ih fun i h1 h2 => h i h1 (Nat.le_succ_of_le h2)
    have hlast := h (k + 1) (Nat.le_add_left 1 k) le_rfl
    rw [decrementN_succ, decrementDependency_mt_manager, hk]
    have hc : wrapInt32 ((Job.decrementN .MULTI_THREAD k s).1.m_dependency_count - 1) =
        wrapInt32 (s.1.m_dependency_count - (k + 1 : Nat)) := by
      rw [← decrementN_count k s, decrementN_succ, decrementDependency_mt_count]
    rw [hc, if_neg hlast]

/-- Increments on a job that is not scheduled never abort; the counter after
`n` of them. -/
theorem incrementN_of_not_scheduled (n : Nat) (j : Job) (hs : j.m_scheduled = false)
    (hc : inInt32 j.m_dependency_count) :
    Job.incrementN .MULTI_THREAD n j =
      .ok { j with m_dependency_count := wrapInt32 (j.m_dependency_count + n) } := by
  induction n with
  | zero => simp [Job.incrementN, wrapInt32_of_inInt32 hc]
  | succ k ih =>
    simp only [Job.incrementN, ih, incrementDependency_mt, hs]
    simp only [Bool.false_eq_true, if_false, wrapInt32_add_left]
    congr 2
    push_cast
    ring_nf

theorem Job.new_count (a : Bool) (p : Priority) (sy : Bool) :
    (Job.new a p sy).m_dependency_count = 1 := rfl

theorem incrementN_new (n : Nat) (a : Bool) (p : Priority) (sy : Bool) :
    Job.incrementN .MULTI_THREAD n (Job.new a p sy) =
      .ok { Job.new a p sy with m_dependency_count := wrapInt32 (1 + n) } := by
  have hc : inInt32 (Job.new a p sy).m_dependency_count := by
    rw [Job.new_count]
    decide
  rw [incrementN_of_not_scheduled n _ rfl hc]
  rfl

/-- The manager after `n + 1` decrements, in terms of the manager after `n`. -/
theorem decrementN_succ_manager (n : Nat) (s : Job × Manager) :
    (Job.decrementN .MULTI_THREAD (n + 1) s).2 =
      if wrapInt32 (s.1.m_dependency_count - (n + 1 : Nat)) = 1 then
        { m_ready := (Job.decrementN .MULTI_THREAD n s).2.m_ready ++
            [(Job.decrementN .MULTI_THREAD (n + 1) s).1] }
      else (Job.decrementN .MULTI_THREAD n s).2 := by
  have hc : wrapInt32 ((Job.decrementN .MULTI_THREAD n s).1.m_dependency_count - 1) =
      wrapInt32 (s.1.m_dependency_count - (n + 1 : Nat)) := by
    rw [← decrementN_count n s, decrementN_succ, decrementDependency_mt_count]
  rw [decrementN_succ, decrementDependency_mt_manager, hc]

/-! ## Dispatch only after the last predecessor -/

/-- C1 (amended): for every `N ≤ 2^32` and every `k < N`, a freshly constructed
job takes `N` calls of `incrementDependency` without abort, and after only `k`
calls of `decrementDependency` the manager is exactly as before: no call of
`Manager::schedule` has happened. The `N`-th decrement is the one that hands
the job to the manager. -/
theorem not_scheduled_before_last_decrement (N k : Nat) (a : Bool) (p : Priority) (sy : Bool)
    (mgr : Manager) (hN : N ≤ 4294967296) (hk : k < N) :
    ∃ j, Job.incrementN .MULTI_THREAD N (Job.new a p sy) = .ok j ∧
      (Job.decrementN .MULTI_THREAD k (j, mgr)).2 = mgr ∧
      (Job.decrementN .MULTI_THREAD N (j, mgr)).2.m_ready.length = mgr.m_ready.length + 1 := by
  refine ⟨_, incrementN_new N a p sy, ?_, ?_⟩
  · apply decrementN_manager_untouched
    intro i h1 h2
    simp only [ne_eq, wrapInt32_sub_left, wrapInt32_eq_one_iff]
    omega
  · obtain ⟨n, rfl⟩ : ∃ n, N = n + 1 := ⟨N - 1, by omega⟩
    rw [decrementN_succ_manager]
    have h0 : (Job.decrementN .MULTI_THREAD n
        ({ Job.new a p sy with m_dependency_count := wrapInt32 (1 + (n + 1 : Nat)) }, mgr)).2 =
        mgr := by
      apply decrementN_manager_untouched
      intro i h1 h2
      simp only [ne_eq, wrapInt32_sub_left, wrapInt32_eq_one_iff]
      omega
    have h1 : wrapInt32 (wrapInt32 (1 + ((n + 1 : Nat) : Int)) - ((n + 1 : Nat) : Int)) = 1 := by
      simp only [wrapInt32_sub_left, wrapInt32_eq_one_iff]
      omega
    simp only [h1, if_true, h0, List.length_append, List.length_singleton]

/-- C1, a concrete instance: three predecessors, two decrements. -/
theorem not_scheduled_before_last_decrement_witness :
    ∃ j, Job.incrementN .MULTI_THREAD 3 (Job.new false .NORMAL true) = .ok j ∧
      (Job.decrementN .MULTI_THREAD 2 (j, { m_ready := [] })).2 = { m_ready := [] } ∧
      (Job.decrementN .MULTI_THREAD 3 (j, { m_ready := [] })).2.m_ready.length =
        ({ m_ready := [] } : Manager).m_ready.length + 1 :=
  not_scheduled_before_last_decrement 3 2 false .NORMAL true { m_ready := [] }
    (by decide) (by decide)

/-- C1 as stated fails: with `N = 2^32 + 1` increments the 32-bit counter has
wrapped to `2`, and the first decrement (`k = 1 < N`) already calls
`Manager::schedule`. -/
theorem scheduled_early_after_counter_wrap :
    ∃ j, Job.incrementN .MULTI_THREAD 4294967297 (Job.new false .NORMAL false) = .ok j ∧
      j.m_dependency_count = 2 ∧
      (Job.decrementN .MULTI_THREAD 1 (j, { m_ready := [] })).2.m_ready.length = 1 := by
  refine ⟨_, incrementN_new 4294967297 false .NORMAL false, ?_, ?_⟩
  · decide
  · rw [decrementN_succ_manager]
    decide

/-! ## One decrement -/

/-- C4 (amended): in the multi-thread build `decrementDependency` lowers the
counter by one in 32-bit arithmetic: by exactly one for every counter value
above `-2^31`, and from `-2^31` to `2^31 - 1`. For every job state it calls
`Manager::schedule` if and only if the resulting count is `1`: then the job is
appended to the ready queue, and for every other resulting value the manager
is left as it was and only the count changes. -/
theorem decrement_lowers_by_one_and_schedules_at_one (j : Job) (m : Manager) :
    (inInt32 j.m_dependency_count → j.m_dependency_count ≠ -2147483648 →
        (Job.decrementDependency .MULTI_THREAD j m).1.m_dependency_count =
          j.m_dependency_count - 1) ∧
      (j.m_dependency_count = -2147483648 →
        (Job.decrementDependency .MULTI_THREAD j m).1.m_dependency_count = 2147483647) ∧
      (Job.decrementDependency .MULTI_THREAD j m).1.m_dependency_count =
        wrapInt32 (j.m_dependency_count - 1) ∧
      ((Job.decrementDependency .MULTI_THREAD j m).1.m_dependency_count = 1 →
        Job.decrementDependency .MULTI_THREAD j m =
          ({ j with m_dependency_count := 1, m_scheduled := true },
            { m_ready := m.m_ready ++
                [{ j with m_dependency_count := 1, m_scheduled := true }] })) ∧
      ((Job.decrementDependency .MULTI_THREAD j m).1.m_dependency_count ≠ 1 →
        Job.decrementDependency .MULTI_THREAD j m =
          ({ j with m_dependency_count := wrapInt32 (j.m_dependency_count - 1) }, m)) := by
  refine ⟨?_, ?_, decrementDependency_mt_count j m, ?_, ?_⟩
  · intro hc hmin
    rw [decrementDependency_mt_count]
    unfold inInt32 at hc
    unfold wrapInt32
    omega
  · intro hmin
    rw [decrementDependency_mt_count, hmin]
    decide
  · intro h1
    rw [decrementDependency_mt_count] at h1
    rw [decrementDependency_mt, h1]
    simp [Manager.schedule]
  · intro h1
    rw [decrementDependency_mt_count] at h1
    rw [decrementDependency_mt, if_neg h1]

/-- C4, concrete instances: the transition from `2` to `1` schedules, the one
from `5` to `4` does not, and neither does the wrap at `-2^31`. -/
theorem decrement_lowers_by_one_and_schedules_at_one_witness :
    Job.decrementDependency .MULTI_THREAD
        { Job.new false .LOW false with m_dependency_count := 2 } { m_ready := [] } =
      ({ Job.new false .LOW false with m_dependency_count := 1, m_scheduled := true },
        { m_ready := [] ++
            [{ Job.new false .LOW false with m_dependency_count := 1, m_scheduled := true }] }) ∧
      (Job.decrementDependency .MULTI_THREAD
        { Job.new false .LOW false with m_dependency_count := 5 }
        { m_ready := [] }).1.m_dependency_count = 5 - 1 ∧
      Job.decrementDependency .MULTI_THREAD
        { Job.new false .LOW false with m_dependency_count := -2147483648 } { m_ready := [] } =
      ({ Job.new false .LOW false with
          m_dependency_count := wrapInt32 (-2147483648 - 1) }, { m_ready := [] }) :=
  ⟨(decrement_lowers_by_one_and_schedules_at_one
      { Job.new false .LOW false with m_dependency_count := 2 } { m_ready := [] }).2.2.2.1
      (by decide),
    (decrement_lowers_by_one_and_schedules_at_one
      { Job.new false .LOW false with m_dependency_count := 5 } { m_ready := [] }).1
      (by decide) (by decide),
    (decrement_lowers_by_one_and_schedules_at_one
      { Job.new false .LOW false with m_dependency_count := -2147483648 }
      { m_ready := [] }).2.2.2.2 (by decide)⟩

/-- C4 as stated fails at the smallest counter value: from `-2^31` the
decrement wraps to `2^31 - 1`, which is not one less. -/
theorem decrement_wraps_at_int32_min :
    (Job.decrementDependency .MULTI_THREAD
        { Job.new false .LOW false with m_dependency_count := -2147483648 }
        { m_ready := [] }).1.m_dependency_count = 2147483647 ∧
      (Job.decrementDependency .MULTI_THREAD
        { Job.new false .LOW false with m_dependency_count := -2147483648 }
        { m_ready := [] }).1.m_dependency_count ≠ -2147483648 - 1 := by
  decide

/-! ## Construction and increments -/

/-- C5 (amended): a newly constructed job has dependency count `1`,
`scheduled = false`, `executed = false` and the priority and auto-destroy
values given to the constructor; and for every `N < 2^31 - 1`, `N` calls of
`incrementDependency` in the multi-thread build complete and leave the count
at exactly `N + 1`, all other members unchanged. -/
theorem new_job_count_is_predecessors_plus_one (a : Bool) (p : Priority) (sy : Bool) (N : Nat)
    (hN : N < 2147483647) :
    (Job.new a p sy).m_dependency_count = 1 ∧
      (Job.new a p sy).m_scheduled = false ∧
      (Job.new a p sy).m_executed = false ∧
      (Job.new a p sy).m_priority = p ∧
      (Job.new a p sy).m_auto_destroy = a ∧
      Job.incrementN .MULTI_THREAD N (Job.new a p sy) =
        .ok { Job.new a p sy with m_dependency_count := (N : Int) + 1 } := by
  refine ⟨rfl, rfl, rfl, rfl, rfl, ?_⟩
  rw [incrementN_new]
  have hw : wrapInt32 (1 + (N : Int)) = (N : Int) + 1 := by
    unfold wrapInt32
    omega
  rw [hw]

/-- C5, a concrete instance: four predecessors give count five. -/
theorem new_job_count_is_predecessors_plus_one_witness :
    Job.incrementN .MULTI_THREAD 4 (Job.new true .HIGH false) =
      .ok { Job.new true .HIGH false with m_dependency_count := 5 } :=
  (new_job_count_is_predecessors_plus_one true .HIGH false 4 (by decide)).2.2.2.2.2

/-- C5 as stated fails for `N = 2^31 - 1`: the calls complete, but the 32-bit
count is `-2^31`, not `N + 1 = 2^31`. -/
theorem increment_count_wraps :
    ∃ j, Job.incrementN .MULTI_THREAD 2147483647 (Job.new false .NORMAL false) = .ok j ∧
      j.m_dependency_count = -2147483648 ∧
      j.m_dependency_count ≠ ((2147483647 : Nat) : Int) + 1 := by
  refine ⟨_, incrementN_new 2147483647 false .NORMAL false, ?_, ?_⟩ <;> decide

/-! ## The assertion of `incrementDependency` -/

/-- C7: in the multi-thread build `incrementDependency` fails its assertion
`!m_scheduled` when the job's `scheduled` flag is set, and completes (with the
count raised by one in 32-bit arithmetic and the flag still clear) when the
flag is clear. -/
theorem increment_asserts_iff_scheduled (j : Job) :
    (j.m_scheduled = true →
        Job.incrementDependency .MULTI_THREAD j = .error (.assertion_failed "!m_scheduled")) ∧
      (j.m_scheduled = false →
        Job.incrementDependency .MULTI_THREAD j =
          .ok { j with m_dependency_count := wrapInt32 (j.m_dependency_count + 1) }) := by
  constructor <;> intro h <;> simp [incrementDependency_mt, h]

/-- C7, concrete instances: a scheduled job aborts, a new job does not. -/
theorem increment_asserts_iff_scheduled_witness :
    Job.incrementDependency .MULTI_THREAD { Job.new false .HIGH false with m_scheduled := true } =
        .error (.assertion_failed "!m_scheduled") ∧
      Job.incrementDependency .MULTI_THREAD (Job.new false .HIGH false) =
        .ok { Job.new false .HIGH false with m_dependency_count := 2 } :=
  ⟨(increment_asserts_iff_scheduled
      { Job.new false .HIGH false with m_scheduled := true }).1 rfl,
    (increment_asserts_iff_scheduled (Job.new false .HIGH false)).2 rfl⟩

/-! ## A job without predecessors -/

/-- C10 (amended): on a freshly constructed job that never received an
increment, `m < 2^32` calls of `decrementDependency` leave the manager exactly
as before: `Manager::schedule` is not invoked, the count after the calls being
`1 - m` in 32-bit arithmetic. -/
theorem no_predecessor_job_never_ready (m : Nat) (a : Bool) (p : Priority) (sy : Bool)
    (mgr : Manager) (hm : m < 4294967296) :
    (Job.decrementN .MULTI_THREAD m (Job.new a p sy, mgr)).2 = mgr ∧
      (Job.decrementN .MULTI_THREAD m (Job.new a p sy, mgr)).1.m_dependency_count =
        wrapInt32 (1 - m) := by
  constructor
  · apply decrementN_manager_untouched
    intro i h1 h2
    simp only [ne_eq, Job.new_count, wrapInt32_eq_one_iff]
    omega
  · rw [decrementN_count_of_inInt32 m _ (by rw [Job.new_count]; decide), Job.new_count]

/-- C10, a concrete instance: three decrements of a new job. -/
theorem no_predecessor_job_never_ready_witness :
    (Job.decrementN .MULTI_THREAD 3 (Job.new false .NORMAL false, { m_ready := [] })).2 =
        { m_ready := [] } ∧
      (Job.decrementN .MULTI_THREAD 3
        (Job.new false .NORMAL false, { m_ready := [] })).1.m_dependency_count =
        wrapInt32 (1 - (3 : Nat)) :=
  no_predecessor_job_never_ready 3 false .NORMAL false { m_ready := [] } (by decide)

/-- C10 as stated fails for `m = 2^32`: the 32-bit count has come round to `1`
again and the last decrement calls `Manager::schedule`. -/
theorem no_predecessor_job_ready_after_wrap :
    (Job.decrementN .MULTI_THREAD 4294967296
        (Job.new false .NORMAL false, { m_ready := [] })).1.m_dependency_count = 1 ∧
      (Job.decrementN .MULTI_THREAD 4294967296
        (Job.new false .NORMAL false, { m_ready := [] })).2.m_ready.length = 1 := by
  have e : (4294967295 + 1 : Nat) = 4294967296 := by norm_num
  have hcount := decrementN_count 4294967295 (Job.new false .NORMAL false, { m_ready := [] })
  have hmgr := decrementN_succ_manager 4294967295 (Job.new false .NORMAL false, { m_ready := [] })
  have h0 : (Job.decrementN .MULTI_THREAD 4294967295
      (Job.new false .NORMAL false, { m_ready := [] })).2 = { m_ready := [] } := by
    apply decrementN_manager_untouched
    intro i h1 h2
    simp only [ne_eq, Job.new_count, wrapInt32_eq_one_iff]
    omega
  have hw : wrapInt32 ((Job.new false .NORMAL false,
      ({ m_ready := [] } : Manager)).1.m_dependency_count - ((4294967296 : Nat) : Int)) = 1 := by
    decide
  rw [e, hw] at hcount
  rw [e, hw, if_pos rfl, h0] at hmgr
  refine ⟨hcount, ?_⟩
  rw [hmgr]
  rfl

/-! ## At most one scheduling -/

/-- Within `2^32` decrements the ready queue grows by one entry exactly when
some decrement brought the counter to `1`, and not at all otherwise. -/
theorem decrementN_ready_length (n : Nat) (s : Job × Manager) (hn : n ≤ 4294967296) :
    ((Job.decrementN .MULTI_THREAD n s).2.m_ready.length = s.2.m_ready.length ∧
        ∀ i : Nat, 1 ≤ i → i ≤ n → wrapInt32 (s.1.m_dependency_count - i) ≠ 1) ∨
      ((Job.decrementN .MULTI_THREAD n s).2.m_ready.length = s.2.m_ready.length + 1 ∧
        ∃ i : Nat, 1 ≤ i ∧ i ≤ n ∧ wrapInt32 (s.1.m_dependency_count - i) = 1) := by
  induction n with
  | zero =>
    left
    exact ⟨rfl, fun i h1 h2 => absurd h2 (by omega)⟩
  | succ k ih =>
    rw [decrementN_succ_manager]
    rcases ih (Nat.le_of_succ_le hn) with ⟨hlen, hno⟩ | ⟨hlen, i, hi1, hik, hi⟩
    · by_cases hk : wrapInt32 (s.1.m_dependency_count - (k + 1 : Nat)) = 1
      · right
        refine ⟨?_, k + 1, Nat.le_add_left 1 k, le_rfl, hk⟩
        rw [if_pos hk]
        simp [hlen]
      · left
        refine ⟨?_, ?_⟩
        · rw [if_neg hk, hlen]
        · intro i h1 h2
          rcases Nat.lt_or_ge i (k + 1) with hlt | hge
          · exact hno i h1 (Nat.le_of_lt_succ hlt)
          · have : i = k + 1 := le_antisymm h2 hge
            subst this
            exact hk
    · have hk : ¬ wrapInt32 (s.1.m_dependency_count - (k + 1 : Nat)) = 1 := by
        rw [wrapInt32_eq_one_iff] at hi ⊢
        omega
      right
      refine ⟨?_, i, hi1, Nat.le_succ_of_le hik, hi⟩
      rw [if_neg hk, hlen]

/-- Each decrement appends to the ready queue exactly when the count it
produces is `1`. -/
theorem decrementN_succ_ready_length (n : Nat) (s : Job × Manager) :
    (Job.decrementN .MULTI_THREAD (n + 1) s).2.m_ready.length =
      (Job.decrementN .MULTI_THREAD n s).2.m_ready.length +
        if (Job.decrementN .MULTI_THREAD (n + 1) s).1.m_dependency_count = 1 then 1 else 0 := by
  rw [decrementN_succ_manager, decrementN_count]
  split <;> simp

/-- C2 (amended): for every job and every sequence of at most `2^32` calls of
`decrementDependency` on it, each call invokes `Manager::schedule` exactly when
the count it produces is `1`; at most one call of the sequence does so, and
exactly one does as soon as some call of the sequence produces the count `1`. -/
theorem schedule_at_most_once (n : Nat) (j : Job) (mgr : Manager) (hn : n ≤ 4294967296) :
    (∀ i : Nat, (Job.decrementN .MULTI_THREAD (i + 1) (j, mgr)).2.m_ready.length =
        (Job.decrementN .MULTI_THREAD i (j, mgr)).2.m_ready.length +
          if (Job.decrementN .MULTI_THREAD (i + 1) (j, mgr)).1.m_dependency_count = 1
          then 1 else 0) ∧
      (Job.decrementN .MULTI_THREAD n (j, mgr)).2.m_ready.length ≤ mgr.m_ready.length + 1 ∧
      ((∃ i : Nat, i < n ∧
          (Job.decrementN .MULTI_THREAD (i + 1) (j, mgr)).1.m_dependency_count = 1) ↔
        (Job.decrementN .MULTI_THREAD n (j, mgr)).2.m_ready.length = mgr.m_ready.length + 1) ∧
      (∀ i i2 : Nat, i < n → i2 < n →
        (Job.decrementN .MULTI_THREAD (i + 1) (j, mgr)).1.m_dependency_count = 1 →
        (Job.decrementN .MULTI_THREAD (i2 + 1) (j, mgr)).1.m_dependency_count = 1 → i = i2) := by
  refine ⟨fun i => decrementN_succ_ready_length i (j, mgr), ?_, ?_, ?_⟩
  · rcases decrementN_ready_length n (j, mgr) hn with ⟨hlen, _⟩ | ⟨hlen, _⟩ <;>
      simp only [hlen] <;> omega
  · constructor
    · rintro ⟨i, hin, hi⟩
      rw [decrementN_count] at hi
      rcases decrementN_ready_length n (j, mgr) hn with ⟨_, hno⟩ | ⟨hlen, _⟩
      · exact absurd hi (hno (i + 1) (Nat.le_add_left 1 i) hin)
      · exact hlen
    · intro hlen
      rcases decrementN_ready_length n (j, mgr) hn with ⟨hlen0, _⟩ | ⟨_, i, hi1, hin, hi⟩
      · rw [hlen0] at hlen
        exact absurd hlen (by simp)
      · obtain ⟨i0, rfl⟩ : ∃ i0, i = i0 + 1 := ⟨i - 1, by omega⟩
        exact ⟨i0, hin, by rw [decrementN_count]; exact hi⟩
  · intro i i2 hi hi2 h1 h2
    rw [decrementN_count, wrapInt32_eq_one_iff] at h1 h2
    simp only at h1 h2
    omega

/-- C2, a concrete instance: four decrements of a job whose count is `3`. -/
theorem schedule_at_most_once_witness :
    (Job.decrementN .MULTI_THREAD 4
        ({ Job.new false .HIGH false with m_dependency_count := 3 },
          { m_ready := [] })).2.m_ready.length ≤ ({ m_ready := [] } : Manager).m_ready.length + 1 :=
  (schedule_at_most_once 4 { Job.new false .HIGH false with m_dependency_count := 3 }
    { m_ready := [] } (by decide)).2.1

/-- C2 as stated fails for a sequence of `2^32 + 1` decrements on a job whose
count is `2`: the first and the last call both produce the count `1`, and two
entries reach the ready queue. -/
theorem scheduled_twice_after_counter_wrap :
    (Job.decrementN .MULTI_THREAD 4294967297
        ({ Job.new false .NORMAL false with m_dependency_count := 2 },
          { m_ready := [] })).2.m_ready.length = 2 := by
  have e : (4294967296 + 1 : Nat) = 4294967297 := by norm_num
  have hmgr := decrementN_succ_ready_length 4294967296
    ({ Job.new false .NORMAL false with m_dependency_count := 2 }, { m_ready := [] })
  have hcount := decrementN_count 4294967296
    ({ Job.new false .NORMAL false with m_dependency_count := 2 }, { m_ready := [] })
  have hw : wrapInt32 (({ Job.new false .NORMAL false with m_dependency_count := 2 },
      ({ m_ready := [] } : Manager)).1.m_dependency_count - ((4294967297 : Nat) : Int)) = 1 := by
    decide
  rw [e, hw] at hcount
  rw [e, hcount, if_pos rfl] at hmgr
  have hprev : (Job.decrementN .MULTI_THREAD 4294967296
      ({ Job.new false .NORMAL false with m_dependency_count := 2 },
        { m_ready := [] })).2.m_ready.length = 1 := by
    rcases decrementN_ready_length 4294967296
      ({ Job.new false .NORMAL false with m_dependency_count := 2 }, { m_ready := [] })
      le_rfl with ⟨_, hno⟩ | ⟨hlen, _⟩
    · exact absurd (by decide) (hno 1 le_rfl (by norm_num))
    · exact hlen
  rw [hmgr, hprev]

/-! ## The counter under arbitrary call sequences -/

/-- The counter after a call sequence that ran to its end. -/
theorem applyCalls_count (cs : List Call) (j : Job) (m : Manager) (s : Job × Manager)
    (hc : inInt32 j.m_dependency_count)
    (hrun : Job.applyCalls .MULTI_THREAD cs (j, m) = .ok s) :
    s.1.m_dependency_count =
      wrapInt32 (j.m_dependency_count + Call.increments cs - Call.decrements cs) := by
  induction cs generalizing j m with
  | nil =>
    simp only [Job.applyCalls, Except.ok.injEq] at hrun
    subst hrun
    simp [Call.increments, Call.decrements, wrapInt32_of_inInt32 hc]
  | cons c cs ih =>
    cases c with
    | increment =>
      cases hs : j.m_scheduled with
      | true =>
        simp [Job.applyCalls, Job.applyCall, incrementDependency_mt, hs] at hrun
      | false =>
        simp only [Job.applyCalls, Job.applyCall, incrementDependency_mt, hs] at hrun
        have h := ih _ m (inInt32_wrapInt32 _) hrun
        rw [h]
        simp only [Call.increments, Call.decrements, List.count_cons_self,
          List.count_cons_of_ne (by decide : Call.decrement ≠ Call.increment)]
        push_cast
        unfold wrapInt32
        omega
    | decrement =>
      simp only [Job.applyCalls, Job.applyCall] at hrun
      have h := ih (Job.decrementDependency .MULTI_THREAD j m).1
        (Job.decrementDependency .MULTI_THREAD j m).2
        (by rw [decrementDependency_mt_count]; exact inInt32_wrapInt32 _) hrun
      rw [h, decrementDependency_mt_count]
      simp only [Call.increments, Call.decrements, List.count_cons_self,
        List.count_cons_of_ne (by decide : Call.increment ≠ Call.decrement)]
      push_cast
      unfold wrapInt32
      omega

/-- C3 (amended): after any sequence of `incrementDependency` /
`decrementDependency` calls applied to a newly constructed job that ran to its
end, the count is `1 + increments - decrements`, and so not negative, provided
the sequence holds at most one decrement more than increments and fewer than
`2^31 - 1` increments. -/
theorem count_not_negative_while_holds_remain (cs : List Call) (a : Bool) (p : Priority)
    (sy : Bool) (mgr : Manager) (s : Job × Manager)
    (hrun : Job.applyCalls .MULTI_THREAD cs (Job.new a p sy, mgr) = .ok s)
    (hdec : Call.decrements cs ≤ Call.increments cs + 1)
    (hinc : Call.increments cs < 2147483647) :
    s.1.m_dependency_count = 1 + (Call.increments cs : Int) - Call.decrements cs ∧
      0 ≤ s.1.m_dependency_count := by
  have hc : inInt32 (Job.new a p sy).m_dependency_count := by
    rw [Job.new_count]
    decide
  have h := applyCalls_count cs _ mgr s hc hrun
  rw [Job.new_count] at h
  have hw : wrapInt32 (1 + (Call.increments cs : Int) - Call.decrements cs) =
      1 + (Call.increments cs : Int) - Call.decrements cs := by
    unfold wrapInt32
    omega
  rw [hw] at h
  exact ⟨h, by omega⟩

/-- C3, a concrete instance: one predecessor attached, then both holds
released. -/
theorem count_not_negative_while_holds_remain_witness :
    ∃ s, Job.applyCalls .MULTI_THREAD [.increment, .decrement, .decrement]
        (Job.new false .NORMAL false, { m_ready := [] }) = .ok s ∧
      s.1.m_dependency_count = 1 + ((Call.increments [.increment, .decrement, .decrement] : Nat)
        : Int) - Call.decrements [.increment, .decrement, .decrement] ∧
      0 ≤ s.1.m_dependency_count :=
  ⟨_, rfl, count_not_negative_while_holds_remain [.increment, .decrement, .decrement]
    false .NORMAL false { m_ready := [] } _ rfl (by decide) (by decide)⟩

/-- C3 as stated fails: two decrements of a newly constructed job run to
their end and leave the count at `-1`. -/
theorem count_negative_after_two_decrements :
    ∃ s, Job.applyCalls .MULTI_THREAD [.decrement, .decrement]
        (Job.new false .NORMAL false, { m_ready := [] }) = .ok s ∧
      s.1.m_dependency_count = -1 ∧ s.1.m_dependency_count < 0 :=
  ⟨_, rfl, by decide, by decide⟩

/-! ## The single-threaded build -/

/-- C6 (amended): in the single-threaded build `incrementDependency` and
`decrementDependency` have empty bodies: for every job state they leave the
job, its count included, and the manager unchanged, no assertion is evaluated
and nothing is handed on; so does every sequence of such calls. -/
theorem single_thread_calls_do_nothing (j : Job) (m : Manager) (cs : List Call) :
    Job.incrementDependency .SINGLE_THREAD j = .ok j ∧
      Job.decrementDependency .SINGLE_THREAD j m = (j, m) ∧
      Job.applyCalls .SINGLE_THREAD cs (j, m) = .ok (j, m) := by
  refine ⟨rfl, rfl, ?_⟩
  induction cs with
  | nil => rfl
  | cons c cs ih =>
    cases c <;> simpa [Job.applyCalls, Job.applyCall, Job.incrementDependency,
      Job.decrementDependency] using ih

/-- C6 as stated fails on a newly constructed job: the single-threaded
`incrementDependency` leaves the count at `1` where the specification's plain
update and the multi-thread build give `2`; and at count `2` the
single-threaded `decrementDependency` hands nothing on where the
specification's inline evaluation and the multi-thread build schedule the
job. -/
theorem single_thread_differs_from_multi_thread :
    (Job.incrementDependency .SINGLE_THREAD (Job.new false .NORMAL false)).map
        (fun j => j.m_dependency_count) = .ok 1 ∧
      (SingleThreadSpec.incrementDependency (Job.new false .NORMAL false)).m_dependency_count
        = 2 ∧
      (Job.incrementDependency .MULTI_THREAD (Job.new false .NORMAL false)).map
        (fun j => j.m_dependency_count) = .ok 2 ∧
      (Job.decrementDependency .SINGLE_THREAD
        { Job.new false .NORMAL false with m_dependency_count := 2 }
        { m_ready := [] }).2.m_ready.length = 0 ∧
      (SingleThreadSpec.decrementDependency
        { Job.new false .NORMAL false with m_dependency_count := 2 }
        { m_ready := [] }).2.m_ready.length = 1 ∧
      (Job.decrementDependency .MULTI_THREAD
        { Job.new false .NORMAL false with m_dependency_count := 2 }
        { m_ready := [] }).2.m_ready.length = 1 := by
  refine ⟨rfl, by decide, rfl, by decide, by decide, by decide⟩

/-! ## The completion path -/

/-- The completion path on a live job, statement by statement: what each
action finds in the job and what is left at the end. -/
theorem onExecuted_live (j : Job) (t : List Observation) :
    Job.onExecuted { obj := some j, trace := t } =
      .ok
        { obj :=
            if j.m_auto_destroy then none
            else some { j with toBaseEntry := j.toBaseEntry.dependencyReady, m_executed := true }
          trace :=
            t ++ [{ action := .dependencyReady, seen := j },
              { action := .setExecuted,
                seen := { j with toBaseEntry := j.toBaseEntry.dependencyReady } }] ++
            if j.m_auto_destroy then
              [{ action := .destroy
                 seen := { j with toBaseEntry := j.toBaseEntry.dependencyReady,
                                  m_executed := true } }]
            else [] } := by
  cases h : j.m_auto_destroy <;>
    simp [Job.onExecuted, Slot.access, bind, Except.bind, h]

theorem onExecuted_fresh (j : Job) :
    Job.onExecuted (Slot.fresh j) =
      .ok
        { obj :=
            if j.m_auto_destroy then none
            else some { j with toBaseEntry := j.toBaseEntry.dependencyReady, m_executed := true }
          trace :=
            [{ action := .dependencyReady, seen := j },
              { action := .setExecuted,
                seen := { j with toBaseEntry := j.toBaseEntry.dependencyReady } }] ++
            if j.m_auto_destroy then
              [{ action := .destroy
                 seen := { j with toBaseEntry := j.toBaseEntry.dependencyReady,
                                  m_executed := true } }]
            else [] } := by
  have h := onExecuted_live j []
  simpa [Slot.fresh] using h

/-- Running the completion path on a deleted object is a use after free. -/
theorem onExecuted_deleted (t : List Observation) :
    Job.onExecuted { obj := none, trace := t } = .error .use_after_free := rfl

theorem executedAtSignal_eq (j : Job) : Job.executedAtSignal j = some j.m_executed := by
  unfold Job.executedAtSignal
  rw [onExecuted_fresh]
  simp [List.find?]

/-- The counter operations leave `executed`, `auto_destroy` and the
synchronization signal alone. -/
theorem applyCalls_preserves (T : BuildType) (cs : List Call) (s st : Job × Manager)
    (hrun : Job.applyCalls T cs s = .ok st) :
    st.1.m_executed = s.1.m_executed ∧ st.1.m_auto_destroy = s.1.m_auto_destroy ∧
      st.1.m_sync_event = s.1.m_sync_event := by
  induction cs generalizing s with
  | nil =>
    simp only [Job.applyCalls, Except.ok.injEq] at hrun
    subst hrun
    exact ⟨rfl, rfl, rfl⟩
  | cons c cs ih =>
    cases c with
    | increment =>
      cases T with
      | SINGLE_THREAD =>
        simp only [Job.applyCalls, Job.applyCall, Job.incrementDependency] at hrun
        exact ih _ hrun
      | MULTI_THREAD =>
        cases hs : s.1.m_scheduled with
        | true =>
          simp [Job.applyCalls, Job.applyCall, incrementDependency_mt, hs] at hrun
        | false =>
          simp only [Job.applyCalls, Job.applyCall, incrementDependency_mt, hs] at hrun
          have h := ih _ hrun
          exact h
    | decrement =>
      simp only [Job.applyCalls, Job.applyCall] at hrun
      have h := ih _ hrun
      cases T with
      | SINGLE_THREAD => exact h
      | MULTI_THREAD =>
        rw [decrementDependency_mt] at h
        split at h <;> exact h

/-- C8 (amended): for every job with `auto_destroy = false` and a
synchronization signal, at the point of the completion path where the signal
is released (`BaseEntry::dependencyReady` inside `Job::onExecuted`) the
`executed` flag still has the value it had before the call; the flag is
`true`, with the signal triggered, once `onExecuted` has returned. For a job
constructed with `auto_destroy = false` and a synchronization signal, in
whatever state the counter operations and the scheduling have brought it to,
the value at the release of the signal is `false`. -/
theorem executed_set_after_signal_release (j : Job) (e : Event)
    (hd : j.m_auto_destroy = false) (hs : j.m_sync_event = some e) :
    Job.executedAtSignal j = some j.m_executed ∧
      (∃ s j1, Job.onExecuted (Slot.fresh j) = .ok s ∧ s.obj = some j1 ∧
        j1.m_executed = true ∧ j1.m_sync_event = some { triggered := true } ∧
        s.trace.map (fun o => (o.action, o.seen.m_executed, o.seen.m_sync_event)) =
          [(Action.dependencyReady, j.m_executed, some e),
            (Action.setExecuted, j.m_executed, some { triggered := true })]) ∧
      ∀ (T : BuildType) (cs : List Call) (p : Priority) (mgr : Manager) (st : Job × Manager),
        Job.applyCalls T cs (Job.new false p true, mgr) = .ok st →
          st.1.m_auto_destroy = false ∧ st.1.m_sync_event = some { triggered := false } ∧
            Job.executedAtSignal st.1 = some false ∧
            ∃ s j1, Job.onExecuted (Slot.fresh st.1) = .ok s ∧ s.obj = some j1 ∧
              j1.m_executed = true ∧ j1.m_sync_event = some { triggered := true } := by
  refine ⟨executedAtSignal_eq j, ?_, ?_⟩
  · refine ⟨_, { j with toBaseEntry := j.toBaseEntry.dependencyReady, m_executed := true },
      onExecuted_fresh j, by simp [hd], rfl, ?_, ?_⟩
    · simp [BaseEntry.dependencyReady, hs]
    · simp [hd, hs, BaseEntry.dependencyReady]
  · intro T cs p mgr st hrun
    obtain ⟨hx, ha, hev⟩ := applyCalls_preserves T cs _ st hrun
    have ha1 : st.1.m_auto_destroy = false := ha
    have hev1 : st.1.m_sync_event = some { triggered := false } := hev
    have hx1 : st.1.m_executed = false := hx
    refine ⟨ha1, hev1, ?_, ?_⟩
    · rw [executedAtSignal_eq, hx1]
    · refine ⟨_, { st.1 with toBaseEntry := st.1.toBaseEntry.dependencyReady, m_executed := true },
        onExecuted_fresh st.1, by simp [ha1], rfl, ?_⟩
      simp [BaseEntry.dependencyReady, hev1]

/-- C8, a concrete instance: a job that has been scheduled. -/
theorem executed_set_after_signal_release_witness :
    Job.executedAtSignal { Job.new false .NORMAL true with m_scheduled := true } = some false :=
  (executed_set_after_signal_release { Job.new false .NORMAL true with m_scheduled := true }
    { triggered := false } rfl rfl).1

/-- C8 as stated fails: for a job constructed with `auto_destroy = false` and a
synchronization signal, `executed` is `false`, not `true`, when the signal is
released. -/
theorem executed_false_at_signal_release :
    Job.executedAtSignal (Job.new false .NORMAL true) = some false ∧
      Job.executedAtSignal (Job.new false .NORMAL true) ≠ some true := by
  decide

/-- C9: for every job state `onExecuted` runs to its end without touching a
deleted object and performs, in this order and whatever the state, the
completion notification `BaseEntry::dependencyReady` (on the job as it was),
the write `executed := true` (on the job already notified), and, exactly when
`auto_destroy` is set, the destruction of the job, notified and with
`executed = true`, as its last action. With `auto_destroy` clear the job
survives with `executed = true` and with `priority`, `auto_destroy` and
`scheduled` unchanged. The notification records that the entry has finished,
notifies the dependents and triggers the signal if there is one. -/
theorem onExecuted_notifies_marks_then_destroys (j : Job) (t : List Observation) :
    ∃ s, Job.onExecuted { obj := some j, trace := t } = .ok s ∧
      s.trace =
        t ++ [{ action := .dependencyReady, seen := j },
          { action := .setExecuted,
            seen := { j with toBaseEntry := j.toBaseEntry.dependencyReady } }] ++
        (if j.m_auto_destroy then
          [{ action := .destroy
             seen := { j with toBaseEntry := j.toBaseEntry.dependencyReady,
                              m_executed := true } }]
        else []) ∧
      s.obj =
        (if j.m_auto_destroy then none
         else some { j with toBaseEntry := j.toBaseEntry.dependencyReady, m_executed := true }) ∧
      (s.trace.getLast?.map (fun o => o.action) = some Action.destroy ↔
        j.m_auto_destroy = true) ∧
      (s.obj = none ↔ j.m_auto_destroy = true) ∧
      s.obj.map (fun j1 => (j1.m_executed, j1.m_priority, j1.m_auto_destroy, j1.m_scheduled)) =
        (if j.m_auto_destroy then none
         else some (true, j.m_priority, false, j.m_scheduled)) ∧
      j.toBaseEntry.dependencyReady.finished = true ∧
      j.toBaseEntry.dependencyReady.notified = j.notified ++ j.dependents ∧
      j.toBaseEntry.dependencyReady.m_sync_event =
        j.m_sync_event.map (fun _ => { triggered := true }) ∧
      j.toBaseEntry.dependencyReady.m_dependency_count = j.m_dependency_count := by
  refine ⟨_, onExecuted_live j t, ?_⟩
  cases h : j.m_auto_destroy <;> simp [h, BaseEntry.dependencyReady]

end MTJD

namespace PathUtils

/-! ## The loop of `normalize` -/

theorem writeOut_append (pre suf : List Nat) (x v : Nat) :
    writeOut (pre ++ x :: suf) (pre.length : Int) v = .ok (pre ++ v :: suf) := by
  have h : (0 : Int) ≤ (pre.length : Int) ∧
      (pre.length : Int) < ((pre ++ x :: suf).length : Int) := by
    constructor
    · exact Int.natCast_nonneg _
    · simp only [List.length_append, List.length_cons]
      omega
  simp only [writeOut, h, and_self, if_true, Int.toNat_ofNat]
  rw [List.set_append_right _ _ le_rfl]
  simp

theorem getD_append_cons (pre suf : List Nat) (x d : Nat) :
    (pre ++ x :: suf).getD pre.length d = x := by
  induction pre with
  | nil => rfl
  | cons a t ih => simpa using ih

theorem cString_cons_of_ne_zero (c : Nat) (rest : List Nat) (h : c ≠ 0) :
    cString (c :: rest) = c :: cString rest := by
  simp [cString, List.takeWhile_cons, h]

theorem cString_cons_zero (rest : List Nat) : cString (0 :: rest) = [] := by
  simp [cString, List.takeWhile_cons]

theorem foldChar_eq (c : Nat) :
    (if 65 ≤ c ∧ c ≤ 90 then c - 65 + 97 else if c = 92 then 47 else c) = foldChar c := by
  unfold foldChar
  split_ifs <;> omega

/-- The loop, started at offset `pre.length` of the buffer `pre ++ suf`: it
stores the images of the characters of the string, as many as fit below
`max_size`, and leaves the rest of the buffer alone. -/
theorem normalizeLoop_append (max_size : Nat) (s pre suf : List Nat)
    (hpre : pre.length ≤ max_size) (hsuf : max_size ≤ pre.length + suf.length) :
    normalizeLoop max_size s pre.length (pre ++ suf) =
      .ok (pre.length + min (cString s).length (max_size - pre.length),
        pre ++ ((cString s).take (max_size - pre.length)).map foldChar ++
          suf.drop (min (cString s).length (max_size - pre.length))) := by
  induction s generalizing pre suf with
  | nil => simp [normalizeLoop, cString]
  | cons c rest ih =>
    by_cases h : c ≠ 0 ∧ pre.length < max_size
    · obtain ⟨hc, hlt⟩ := h
      obtain ⟨x, suf1, rfl⟩ : ∃ x suf1, suf = x :: suf1 := by
        cases suf with
        | nil => simp at hsuf; omega
        | cons x t => exact ⟨x, t, rfl⟩
      obtain ⟨k, hk⟩ : ∃ k, max_size - pre.length = k + 1 := ⟨max_size - pre.length - 1, by omega⟩
      have hk1 : max_size - (pre ++ [foldChar c]).length = k := by
        simp only [List.length_append, List.length_singleton]
        omega
      have hstep := ih (pre ++ [foldChar c]) suf1
        (by simp only [List.length_append, List.length_singleton]; omega)
        (by simp only [List.length_append, List.length_singleton, List.length_cons] at hsuf ⊢
            omega)
      rw [hk1] at hstep
      simp only [List.length_append, List.length_singleton, List.append_assoc,
        List.singleton_append] at hstep
      simp only [normalizeLoop, hc, hlt, ne_eq, not_false_eq_true, and_self, if_true,
        writeOut_append, getD_append_cons, foldChar_eq, hstep, hk,
        cString_cons_of_ne_zero c rest hc, List.length_cons, List.take_succ_cons,
        List.map_cons, Nat.succ_min_succ, List.drop_succ_cons, List.cons_append]
      congr 2
      · omega
      · simp
    · have hret : normalizeLoop max_size (c :: rest) pre.length (pre ++ suf) =
          .ok (pre.length, pre ++ suf) := by
        simp only [normalizeLoop, h, if_false]
      rw [hret]
      by_cases hc : c = 0
      · subst hc
        simp [cString_cons_zero]
      · have hz : max_size - pre.length = 0 := by
          have : ¬ pre.length < max_size := fun hlt => h ⟨hc, hlt⟩
          omega
        simp [hz]

/-! ## `normalize` against its reference definition -/

theorem cString_skip (path : List Nat) :
    cString (if readPath path 0 = 92 ∨ readPath path 0 = 47 then path.drop 1 else path) =
      stripLeadingSeparator (cString path) := by
  cases path with
  | nil => simp [readPath, cString, stripLeadingSeparator]
  | cons c rest =>
    simp only [readPath, List.getD_cons_zero, List.drop_succ_cons, List.drop_zero]
    by_cases hsep : c = 92 ∨ c = 47
    · have hc : c ≠ 0 := by omega
      simp [hsep, cString_cons_of_ne_zero c rest hc, stripLeadingSeparator]
    · by_cases hc : c = 0
      · subst hc
        simp [cString_cons_zero, stripLeadingSeparator]
      · simp [hsep, cString_cons_of_ne_zero c rest hc, stripLeadingSeparator]

theorem foldChar_not_backslash_not_upper (c : Nat) :
    foldChar c ≠ 92 ∧ ¬ (65 ≤ foldChar c ∧ foldChar c ≤ 90) := by
  unfold foldChar
  split_ifs <;> omega

theorem normalizeLoop_start (max_size : Nat) (s out : List Nat) (hout : max_size ≤ out.length) :
    normalizeLoop max_size s 0 out =
      .ok (min (cString s).length max_size,
        ((cString s).take max_size).map foldChar ++
          out.drop (min (cString s).length max_size)) := by
  have h := normalizeLoop_append max_size s [] out (Nat.zero_le _) (by simpa using hout)
  simpa using h

/-- C11: for every NUL-terminated path, every `max_size > 0` and every output
buffer of at least `max_size` bytes, `PathUtils::normalize` completes and the
buffer then starts with the reference result, `f` applied to the first
`min(len(p), max_size - 1)` characters of the stripped path `p` followed by a
terminating NUL, the bytes behind it being untouched; the reference result
has `min(len(p), max_size - 1) + 1` bytes, so it fits in `max_size` bytes, and
it holds no backslash and no upper-case ASCII letter. -/
theorem normalize_eq_reference (path out : List Nat) (max_size : Nat)
    (hmax : 0 < max_size) (hout : max_size ≤ out.length) :
    normalize path out max_size =
        .ok (normalizeRef path max_size ++ out.drop (normalizeRef path max_size).length) ∧
      (normalizeRef path max_size).length =
        min (stripLeadingSeparator (cString path)).length (max_size - 1) + 1 ∧
      (normalizeRef path max_size).length ≤ max_size ∧
      ∀ b ∈ normalizeRef path max_size, b ≠ 92 ∧ ¬ (65 ≤ b ∧ b ≤ 90) := by
  have hlen : (normalizeRef path max_size).length =
      min (stripLeadingSeparator (cString path)).length (max_size - 1) + 1 := by
    simp [normalizeRef]
  refine ⟨?_, hlen, by omega, ?_⟩
  · simp only [normalize, hmax, gt_iff_lt, if_true, normalizeLoop_start max_size _ out hout,
      cString_skip]
    rw [hlen]
    simp only [normalizeRef]
    generalize stripLeadingSeparator (cString path) = p
    by_cases hp : p.length < max_size
    · have hmin : min p.length max_size = p.length := by omega
      have hmin1 : min p.length (max_size - 1) = p.length := by omega
      have htake : List.take max_size p = p := List.take_of_length_le (by omega)
      obtain ⟨x, suf, hsuf⟩ : ∃ x suf, out.drop p.length = x :: suf := by
        cases hd : out.drop p.length with
        | nil =>
          have := congrArg List.length hd
          simp at this
          omega
        | cons x t => exact ⟨x, t, rfl⟩
      have hsuf1 : out.drop (p.length + 1) = suf := by
        have := congrArg (List.drop 1) hsuf
        simpa [List.drop_drop, Nat.add_comm] using this
      have hw := writeOut_append (p.map foldChar) suf x 0
      simp only [List.length_map] at hw
      simp only [hmin, hmin1, htake, hp, if_true, hsuf, hw, hsuf1, List.take_length,
        List.append_assoc, List.singleton_append]
    · obtain ⟨m, rfl⟩ : ∃ m, max_size = m + 1 := ⟨max_size - 1, by omega⟩
      have hm : m < p.length := by omega
      have hmin : min p.length (m + 1) = m + 1 := by omega
      have hmin1 : min p.length (m + 1 - 1) = m := by
        simp only [Nat.add_sub_cancel]
        omega
      have htake : List.take (m + 1) p = List.take m p ++ [p[m]] := by
        rw [List.take_succ, List.getElem?_eq_getElem hm]
        rfl
      have hw := writeOut_append ((List.take m p).map foldChar) (out.drop (m + 1))
        (foldChar p[m]) 0
      simp only [List.length_map, List.length_take, Nat.min_eq_left (Nat.le_of_lt hm)] at hw
      have hidx : ((m + 1 : Nat) : Int) - 1 = (m : Int) := by
        push_cast
        ring
      have hnot : ¬ (m + 1 < m + 1) := lt_irrefl _
      simp only [hmin, hmin1, htake, hnot, if_false, hidx, List.map_append, List.map_cons,
        List.map_nil, List.append_assoc, List.singleton_append, hw, List.take_take,
        Nat.min_self]
  · intro b hb
    simp only [normalizeRef, List.mem_append, List.mem_map, List.mem_singleton] at hb
    rcases hb with ⟨c, _, rfl⟩ | rfl
    · exact foldChar_not_backslash_not_upper c
    · exact ⟨by decide, by omega⟩

/-- C11, a concrete instance: `"/Dir\\File.TXT"` with `max_size = 8` into a
buffer of ten bytes. -/
theorem normalize_eq_reference_witness :
    normalize [47, 68, 105, 114, 92, 70, 105, 108, 101, 46, 84, 88, 84]
        [1, 2, 3, 4, 5, 6, 7, 8, 9, 10] 8 =
      .ok (normalizeRef [47, 68, 105, 114, 92, 70, 105, 108, 101, 46, 84, 88, 84] 8 ++
        [1, 2, 3, 4, 5, 6, 7, 8, 9, 10].drop
          (normalizeRef [47, 68, 105, 114, 92, 70, 105, 108, 101, 46, 84, 88, 84] 8).length) ∧
      normalizeRef [47, 68, 105, 114, 92, 70, 105, 108, 101, 46, 84, 88, 84] 8 =
        [100, 105, 114, 47, 102, 105, 108, 0] :=
  ⟨(normalize_eq_reference [47, 68, 105, 114, 92, 70, 105, 108, 101, 46, 84, 88, 84]
      [1, 2, 3, 4, 5, 6, 7, 8, 9, 10] 8 (by decide) (by decide)).1, by decide⟩

end PathUtils

namespace ConsolePlugin

/-! ## The indices read by the word-start scans -/

/-- The loop reads at consecutive indices downwards, ending one index below the
final `start_word`. -/
theorem wordStartLoop_reads (cond : Nat → Bool) (Buf : List Nat) (junk : Nat) (n c : Nat)
    (reads : List Int) :
    (wordStartLoop cond Buf junk n c reads).1 ≤ n ∧
      ∀ idx : Int, idx ∈ (wordStartLoop cond Buf junk n c reads).2 ↔
        idx ∈ reads ∨
          (((wordStartLoop cond Buf junk n c reads).1 : Int) - 1 ≤ idx ∧ idx < (n : Int) - 1) := by
  induction n generalizing c reads with
  | zero =>
    refine ⟨le_rfl, fun idx => ?_⟩
    simp only [wordStartLoop]
    constructor
    · exact fun h => Or.inl h
    · rintro (h | ⟨h1, h2⟩)
      · exact h
      · omega
  | succ k ih =>
    by_cases hc : cond c = true
    · simp only [wordStartLoop, hc, if_true]
      obtain ⟨hle, hmem⟩ := ih (readBuf Buf junk ((k : Int) - 1)) (reads ++ [(k : Int) - 1])
      refine ⟨Nat.le_succ_of_le hle, fun idx => ?_⟩
      rw [hmem idx, List.mem_append, List.mem_singleton]
      push_cast
      constructor
      · rintro ((h | h) | ⟨h1, h2⟩)
        · exact Or.inl h
        · right; omega
        · right; omega
      · rintro (h | ⟨h1, h2⟩)
        · exact Or.inl (Or.inl h)
        · by_cases he : idx = (k : Int) - 1
          · exact Or.inl (Or.inr he)
          · right; omega
    · simp only [wordStartLoop, hc, Bool.false_eq_true, if_false]
      refine ⟨le_rfl, fun idx => ?_⟩
      constructor
      · exact fun h => Or.inl h
      · rintro (h | ⟨h1, h2⟩)
        · exact h
        · omega

/-- The indices read by a scan are exactly those from `CursorPos - 1` down to
`start_word - 1` for the final `start_word`: index `-1`, in front of the
buffer, is read exactly when the scan ends with `start_word = 0`. -/
theorem wordStart_reads (cond : Nat → Bool) (Buf : List Nat) (junk : Nat) (CursorPos : Nat)
    (idx : Int) :
    idx ∈ (wordStart cond Buf junk CursorPos).2 ↔
      ((wordStart cond Buf junk CursorPos).1 : Int) - 1 ≤ idx ∧ idx < (CursorPos : Int) := by
  obtain ⟨hle, hmem⟩ := wordStartLoop_reads cond Buf junk CursorPos
    (readBuf Buf junk ((CursorPos : Int) - 1)) [(CursorPos : Int) - 1]
  unfold wordStart
  rw [hmem idx, List.mem_singleton]
  have hle1 : ((wordStartLoop cond Buf junk CursorPos
      (readBuf Buf junk ((CursorPos : Int) - 1)) [(CursorPos : Int) - 1]).1 : Int) ≤
      (CursorPos : Int) := by
    exact_mod_cast hle
  constructor
  · rintro (h | ⟨h1, h2⟩) <;> omega
  · rintro ⟨h1, h2⟩
    by_cases he : idx = (CursorPos : Int) - 1
    · exact Or.inl he
    · right; omega

/-- C12 fails on the code: with the cursor at position `0` both scans read
`Buf[-1]` for every buffer, and with the buffer `"a"` and the cursor behind
the `a` both scans read index `0` and then index `-1`. -/
theorem word_start_scans_read_before_buffer :
    (∀ Buf junk, completionWordStart Buf junk 0 = (0, [-1])) ∧
      (∀ Buf junk, insertWordStart Buf junk 0 = (0, [-1])) ∧
      (∀ junk, completionWordStart [97] junk 1 = (0, [0, -1])) ∧
      (∀ junk, insertWordStart [97] junk 1 = (0, [0, -1])) ∧
      ¬ ((0 : Int) ≤ -1) :=
  ⟨fun _ _ => rfl, fun _ _ => rfl, fun _ => rfl, fun _ => rfl, by decide⟩

end ConsolePlugin

end Lumix
